import Mathlib

/-!
Verification development for the etterna-base rhythm-game metrics library.

The Rust sources under `src/` are shallowly embedded below.  Machine floats
(`f32`/`f64`) are modelled by exact real numbers `ℝ`; the complementary error
function `erfcf` comes from the external `libm` crate, so every definition of
the rating calculator is parameterised by an arbitrary function
`erfc : ℝ → ℝ`.  A few pieces of the repository are referenced by the crate
root but their files are absent from `src/` (`src/util.rs`,
`src/wife/wife3.rs`, `src/rescore/matching_scorer.rs`); the corresponding
definitions are modelled from the specification and say so in their doc
comments.
-/

set_option maxHeartbeats 1000000

namespace Etterna

/-! ## Judges (src/judge.rs) -/

/-- Model of `struct Judge` from src/judge.rs (window values in seconds). -/
structure Judge where
  marvelous_window : ℝ
  perfect_window : ℝ
  great_window : ℝ
  good_window : ℝ
  bad_window : ℝ
  hold_window : ℝ
  roll_window : ℝ
  mine_window : ℝ
  timing_scale : ℝ

/-- Model of `enum TapJudgement`. -/
inductive TapJudgement
  | Marvelous
  | Perfect
  | Great
  | Good
  | Bad
  | Miss
  deriving DecidableEq, Repr

/-- Model of `Judge::classify` (src/judge.rs): first window that bounds the
absolute deviation, falling through to `Miss`. -/
noncomputable def Judge.classify (j : Judge) (deviation : ℝ) : TapJudgement :=
  let d := |deviation|
  if d ≤ j.marvelous_window then .Marvelous
  else if d ≤ j.perfect_window then .Perfect
  else if d ≤ j.great_window then .Great
  else if d ≤ j.good_window then .Good
  else if d ≤ j.bad_window then .Bad
  else .Miss

/-- Model of `Judge::is_cb` (src/judge.rs, lines 44-46).  The Rust body is
literally `deviation <= self.great_window`: no absolute value is taken and the
comparison direction makes small deviations combo breakers. -/
def Judge.is_cb (j : Judge) (deviation : ℝ) : Prop :=
  deviation ≤ j.great_window

/-- Judge preset `J1` (src/judge.rs). -/
def J1 : Judge :=
  ⟨0.03375, 0.0675, 0.135, 0.2025, 0.27, 0.375, 0.75, 0.075, 1.50⟩

/-- Judge preset `J2` (src/judge.rs). -/
def J2 : Judge :=
  ⟨0.029925, 0.05985, 0.1197, 0.17955, 0.2394, 0.3325, 0.665, 0.075, 1.33⟩

/-- Judge preset `J3` (src/judge.rs). -/
def J3 : Judge :=
  ⟨0.0261, 0.0522, 0.1044, 0.1566, 0.2088, 0.29, 0.58, 0.075, 1.16⟩

/-- Judge preset `J4` (src/judge.rs), the default judge. -/
def J4 : Judge :=
  ⟨0.0225, 0.045, 0.09, 0.135, 0.18, 0.25, 0.5, 0.075, 1.00⟩

/-- Judge preset `J5` (src/judge.rs). -/
def J5 : Judge :=
  ⟨0.0189, 0.0378, 0.0756, 0.1134, 0.18, 0.21, 0.42, 0.075, 0.84⟩

/-- Judge preset `J6` (src/judge.rs). -/
def J6 : Judge :=
  ⟨0.01485, 0.0297, 0.0594, 0.0891, 0.18, 0.165, 0.33, 0.075, 0.66⟩

/-- Judge preset `J7` (src/judge.rs). -/
def J7 : Judge :=
  ⟨0.01125, 0.0225, 0.045, 0.0675, 0.18, 0.125, 0.25, 0.075, 0.50⟩

/-- Judge preset `J8` (src/judge.rs). -/
def J8 : Judge :=
  ⟨0.007425, 0.01485, 0.0297, 0.04455, 0.18, 0.0825, 0.25, 0.075, 0.33⟩

/-- Judge preset `J9` (src/judge.rs). -/
def J9 : Judge :=
  ⟨0.0045, 0.009, 0.018, 0.027, 0.18, 0.05, 0.25, 0.075, 0.20⟩

/-! ## Wife scoring (src/wife/mod.rs, src/wife/wife2.rs) -/

/-- Model of `enum Hit` (src/structs.rs): a hit with a signed deviation, or a
miss. -/
inductive Hit
  | hit (deviation : ℝ)
  | miss

/-- Model of the `Wife` trait (src/wife/mod.rs): the three weight constants
plus the deviation-to-score curve. -/
structure Wife where
  mine_hit_weight : ℝ
  hold_drop_weight : ℝ
  miss_weight : ℝ
  calc_deviation : ℝ → Judge → ℝ

/-- Model of the provided trait method `Wife::calc` (src/wife/mod.rs,
lines 20-25): tagged misses get the fixed miss weight, hits go through the
curve. -/
def Wife.calc (W : Wife) (h : Hit) (judge : Judge) : ℝ :=
  match h with
  | .hit deviation => W.calc_deviation deviation judge
  | .miss => W.miss_weight

/-- Model of `Wife2::calc_deviation` (src/wife/wife2.rs, lines 15-23).  Note
that the body is a single smooth curve: there is no miss-threshold cutoff
anywhere in it. -/
noncomputable def wife2_calc_deviation (deviation : ℝ) (judge : Judge) : ℝ :=
  let maxms := |deviation * 1000|
  let avedeviation := 95 * judge.timing_scale
  let y : ℝ := 1 - (2 : ℝ) ^ (-maxms * maxms / (avedeviation * avedeviation))
  let y2 := y ^ 2
  let score := (2 - -8) * (1 - y2) + -8
  score / 2

/-- Model of the `Wife2` impl (src/wife/wife2.rs): weights are the inner
constants divided by 2. -/
noncomputable def Wife2 : Wife :=
  ⟨-8 / 2, -6 / 2, -8 / 2, wife2_calc_deviation⟩

/-- Modelled from the spec: `src/wife/wife3.rs` is missing from `src/` (only
the `mod wife3;` declaration and the test fixtures in src/wife/mod.rs
remain).  Spec §4.1: "A deviation at or beyond a judge's 'miss' threshold
receives the fixed miss weight instead of the curve value", with Wife3 miss
weight `-2.75`; the threshold consistent with the repository's test fixtures
is the 180 ms base window scaled by the judge's timing scale.  The
below-threshold curve is an abstract parameter `curve`. -/
noncomputable def wife3_calc_deviation (curve : ℝ → Judge → ℝ)
    (deviation : ℝ) (judge : Judge) : ℝ :=
  if 180 * judge.timing_scale ≤ |deviation * 1000| then -2.75
  else curve deviation judge

/-- Modelled from the spec: the `Wife3` impl with its fixed miss weight
`-2.75` and an abstract curve (src/wife/wife3.rs is absent from src/). -/
noncomputable def Wife3 (curve : ℝ → Judge → ℝ) : Wife :=
  ⟨-8, -4.5, -2.75, wife3_calc_deviation curve⟩

/-! ## Rating calculator (src/rating_calc.rs) -/

/-- Model of `is_rating_okay` (src/rating_calc.rs, lines 4-16).  `erfc` is the
external `libm::erfcf`, a parameter of the model; the f32/f64 mixing of the
source is modelled by exact reals. -/
noncomputable def is_rating_okay (erfc : ℝ → ℝ) (rating : ℝ) (ssrs : List ℝ)
    (delta_multiplier : ℝ) : Prop :=
  let max_power_sum : ℝ := (2 : ℝ) ^ (rating * 0.1)
  let power_sum : ℝ :=
    ((ssrs.map fun ssr => 2 / erfc (delta_multiplier * (ssr - rating)) - 2).filter
      fun x => decide ((0 : ℝ) < x)).sum
  power_sum < max_power_sum

/-- The `while !is_rating_okay(rating + resolution) { rating += resolution }`
loop of `calc_rating`: the number of increments performed is the least `n`
such that the candidate `rating + n*res + res` is okay (`sInf ∅ = 0`, so a
hypothetically non-terminating loop is modelled as performing no steps). -/
noncomputable def whileAdd (okay : ℝ → Prop) (rating res : ℝ) : ℝ :=
  rating + (sInf {n : ℕ | okay (rating + n * res + res)} : ℕ) * res

/-- The `for _ in 0..num_iters` loop of `calc_rating`, followed by the final
`rating += resolution * 2.0` once the iteration count reaches zero. -/
noncomputable def calcLoop (okay : ℝ → Prop) : ℕ → ℝ → ℝ → ℝ
  | 0, rating, res => rating + res * 2
  | n + 1, rating, res => calcLoop okay n (whileAdd okay rating res) (res / 2)

/-- Model of `calc_rating` (src/rating_calc.rs, lines 33-58): 11 iterations,
initial rating 0, initial resolution 10.24, final multiplier applied last. -/
noncomputable def calc_rating (erfc : ℝ → ℝ) (ssrs : List ℝ)
    (final_multiplier delta_multiplier : ℝ) : ℝ :=
  calcLoop (fun r => is_rating_okay erfc r ssrs delta_multiplier) 11 0 10.24
    * final_multiplier

/-- Entry point `calculate_score_overall` (src/rating_calc.rs): multipliers
(1.11, 0.25). -/
noncomputable def calculate_score_overall (erfc : ℝ → ℝ) (skillsets : List ℝ) : ℝ :=
  calc_rating erfc skillsets 1.11 0.25

/-- Entry point `calculate_player_skillset_rating` (src/rating_calc.rs):
multipliers (1.05, 0.1). -/
noncomputable def calculate_player_skillset_rating (erfc : ℝ → ℝ) (ssrs : List ℝ) : ℝ :=
  calc_rating erfc ssrs 1.05 0.1

/-- Entry point `calculate_player_skillset_rating_pre_070`
(src/rating_calc.rs): multipliers (1.04, 0.1). -/
noncomputable def calculate_player_skillset_rating_pre_070 (erfc : ℝ → ℝ)
    (ssrs : List ℝ) : ℝ :=
  calc_rating erfc ssrs 1.04 0.1

/-- Entry point `calculate_player_overall` (src/rating_calc.rs): multipliers
(1.125, 0.1). -/
noncomputable def calculate_player_overall (erfc : ℝ → ℝ) (skillsets : List ℝ) : ℝ :=
  calc_rating erfc skillsets 1.125 0.1

/-! ### The spec's reference procedure for the rating calculator (§4.3),
written from the specification's own wording, to be compared with
`calc_rating` above. -/

/-- The sum, over input values `v`, of those contributions
`2/erfc(delta_multiplier × (v − R)) − 2` that are strictly positive
(spec §4.3, "okay" test). -/
noncomputable def specPowerSum (erfc : ℝ → ℝ) (delta_multiplier R : ℝ) :
    List ℝ → ℝ
  | [] => 0
  | v :: rest =>
    let contribution := 2 / erfc (delta_multiplier * (v - R)) - 2
    (if 0 < contribution then contribution else 0) +
      specPowerSum erfc delta_multiplier R rest

/-- Spec §4.3: a candidate `R` is "okay" iff the surviving power sum is
strictly below `2^(R × 0.1)`. -/
noncomputable def specOkay (erfc : ℝ → ℝ) (delta_multiplier : ℝ) (ssrs : List ℝ)
    (R : ℝ) : Prop :=
  specPowerSum erfc delta_multiplier R ssrs < (2 : ℝ) ^ (R * 0.1)

/-- One iteration of the spec's reference procedure: run the while-loop at the
current resolution, then halve the resolution. -/
noncomputable def specStep (okay : ℝ → Prop) (st : ℝ × ℝ) : ℝ × ℝ :=
  (whileAdd okay st.1 st.2, st.2 / 2)

/-- The spec's reference procedure (§4.3): start at rating 0 and resolution
10.24, repeat the step exactly 11 times, add `2 × resolution` to the rating,
and multiply by the final multiplier. -/
noncomputable def spec_calc_rating (erfc : ℝ → ℝ) (ssrs : List ℝ)
    (final_multiplier delta_multiplier : ℝ) : ℝ :=
  let st := (specStep (specOkay erfc delta_multiplier ssrs))^[11] (0, 10.24)
  (st.1 + 2 * st.2) * final_multiplier

/-! ## Skillsets (src/skillsets.rs) -/

/-- Model of `Skillsets7` (src/skillsets.rs): the seven per-skillset values. -/
structure Skillsets7 where
  stream : ℝ
  jumpstream : ℝ
  handstream : ℝ
  stamina : ℝ
  jackspeed : ℝ
  chordjack : ℝ
  technical : ℝ

/-- Model of `Skillsets8` (src/structs/skillsets.rs): the seven skillsets plus
the derived overall. -/
structure Skillsets8 where
  overall : ℝ
  stream : ℝ
  jumpstream : ℝ
  handstream : ℝ
  stamina : ℝ
  jackspeed : ℝ
  chordjack : ℝ
  technical : ℝ

/-- Model of `Skillsets7::with_overall`. -/
def Skillsets7.with_overall (s : Skillsets7) (overall : ℝ) : Skillsets8 :=
  ⟨overall, s.stream, s.jumpstream, s.handstream, s.stamina, s.jackspeed,
    s.chordjack, s.technical⟩

/-- The `[f32; 7]` array the skillset methods pass to the rating calculator,
in field order. -/
def Skillsets7.toList (s : Skillsets7) : List ℝ :=
  [s.stream, s.jumpstream, s.handstream, s.stamina, s.jackspeed, s.chordjack,
    s.technical]

/-- The chained `.max()` expression of `Skillsets7::calc_ssr_overall`. -/
noncomputable def Skillsets7.max_skillset (s : Skillsets7) : ℝ :=
  max (max (max (max (max (max s.stream s.jumpstream) s.handstream) s.stamina)
    s.jackspeed) s.chordjack) s.technical

/-- Model of `Skillsets7::calc_player_overall` (src/skillsets.rs, lines
42-54): the overall is `calculate_player_overall` of the seven fields, with
no further adjustment. -/
noncomputable def Skillsets7.calc_player_overall (erfc : ℝ → ℝ) (s : Skillsets7) :
    Skillsets8 :=
  s.with_overall (calculate_player_overall erfc s.toList)

/-- Model of `Skillsets7::calc_player_overall_pre_070` (src/skillsets.rs):
arithmetic mean of the seven fields. -/
noncomputable def Skillsets7.calc_player_overall_pre_070 (s : Skillsets7) :
    Skillsets8 :=
  s.with_overall
    ((s.stream + s.jumpstream + s.handstream + s.stamina + s.jackspeed +
      s.chordjack + s.technical) / 7)

/-- Model of `Skillsets7::calc_ssr_overall` (src/skillsets.rs, lines 68-90):
the max of the aggregated rating and the largest individual skillset. -/
noncomputable def Skillsets7.calc_ssr_overall (erfc : ℝ → ℝ) (s : Skillsets7) :
    Skillsets8 :=
  s.with_overall (max (calculate_score_overall erfc s.toList) s.max_skillset)

/-! ## Float special values and the validated Wifescore
(src/structs.rs, src/structs/mod.rs) -/

/-- Exact-payload model of an `f32` value: NaN, the two infinities, or a
finite value. -/
inductive FVal (α : Type) where
  | nan
  | inf
  | neginf
  | fin (x : α)
  deriving DecidableEq, Repr

/-- Model of `f32::is_nan`. -/
def FVal.isNan {α : Type} : FVal α → Bool
  | .nan => true
  | _ => false

/-- Model of `f32::is_infinite`. -/
def FVal.isInfinite {α : Type} : FVal α → Bool
  | .inf => true
  | .neginf => true
  | _ => false

/-- IEEE comparison `x > 1.0`: false on NaN, true on `+∞`, false on `-∞`. -/
def FVal.gtOne {α : Type} [One α] [LT α] [DecidableRel (α := α) (· < ·)] :
    FVal α → Bool
  | .nan => false
  | .inf => true
  | .neginf => false
  | .fin x => decide (1 < x)

/-- IEEE division of a value by the positive constant 100 (for
`from_percent`): specials keep their class, finite values are divided. -/
def FVal.div100 {α : Type} [DivisionRing α] : FVal α → FVal α
  | .nan => .nan
  | .inf => .inf
  | .neginf => .neginf
  | .fin x => .fin (x / 100)

/-- Model of `struct Wifescore` (src/structs.rs): a wrapped proportion. -/
structure Wifescore (α : Type) where
  proportion : FVal α
  deriving DecidableEq

/-- Model of `Wifescore::from_proportion` (src/structs.rs, lines 191-197):
`None` iff the proportion is NaN or greater than 1.0.  Note `-∞` is accepted
(the struct's doc comment says "may be negative infinity though"). -/
def Wifescore.from_proportion {α : Type} [One α] [LT α]
    [DecidableRel (α := α) (· < ·)] (proportion : FVal α) :
    Option (Wifescore α) :=
  if proportion.isNan || proportion.gtOne then none
  else some ⟨proportion⟩

/-- Model of `Wifescore::from_percent` (src/structs.rs, lines 184-186). -/
def Wifescore.from_percent {α : Type} [DivisionRing α] [One α] [LT α]
    [DecidableRel (α := α) (· < ·)] (percent : FVal α) : Option (Wifescore α) :=
  Wifescore.from_proportion percent.div100

/-- Model of the alternate `Wifescore::from_proportion` (src/structs/mod.rs,
lines 157-163): this version additionally rejects infinities. -/
def Wifescore.from_proportion_alt {α : Type} [One α] [LT α]
    [DecidableRel (α := α) (· < ·)] (proportion : FVal α) :
    Option (Wifescore α) :=
  if proportion.isInfinite || proportion.isNan || proportion.gtOne then none
  else some ⟨proportion⟩

/-! ## Scoring systems (src/rescore/mod.rs, src/rescore/naive_scorer.rs) -/

/-- Model of `NoteAndHitSeconds` (src/structs.rs). -/
structure NoteAndHitSeconds where
  note_seconds : List ℝ
  hit_seconds : List ℝ

/-- Model of `ScoringResult` (src/rescore/mod.rs): score sum and judged-note
count. -/
structure ScoringResult where
  wifescore_sum : ℝ
  num_judged_notes : ℕ

/-- Modelled from the spec: `crate::util::is_sorted` (src/util.rs is absent
from src/).  Spec §3 requires the sequences to be "sorted ascending", i.e.
each element is at most the next. -/
def is_sorted (l : List ℝ) : Prop :=
  l.Chain' (· ≤ ·)

noncomputable instance : DecidablePred is_sorted := fun l =>
  (inferInstance : Decidable (l.Chain' (· ≤ ·)))

/-- Model of the per-note state `struct Note` of the naive scorer
(src/rescore/naive_scorer.rs): a second plus a claimed flag. -/
structure NoteState where
  second : ℝ
  is_claimed : Bool

/-- One step of the naive scorer's inner scan over `(index, note)` pairs
(src/rescore/naive_scorer.rs, lines 42-57): skip out-of-window notes, skip
claimed notes, otherwise keep the strictly closest note seen so far (the
initial best deviation is `f32::INFINITY`, so the first eligible note always
replaces `none`). -/
noncomputable def noteStep (judge : Judge) (hit_second : ℝ)
    (best : Option (ℕ × NoteState)) (x : ℕ × NoteState) :
    Option (ℕ × NoteState) :=
  if judge.bad_window < |hit_second - x.2.second| then best
  else if x.2.is_claimed then best
  else
    match best with
    | none => some x
    | some b =>
      if |hit_second - x.2.second| < |hit_second - b.2.second| then some x
      else some b

/-- The naive scorer's scan over all notes for one hit. -/
noncomputable def findBest (judge : Judge) (hit_second : ℝ)
    (notes : List NoteState) : Option (ℕ × NoteState) :=
  notes.enum.foldl (noteStep judge hit_second) none

/-- Processing of one hit by the naive scorer: claim the best note and add
its Wife value (of the absolute deviation), or leave the state unchanged for
a stray tap. -/
noncomputable def naiveHitStep (W : Wife) (judge : Judge)
    (st : List NoteState × ℝ) (hit_second : ℝ) : List NoteState × ℝ :=
  match findBest judge hit_second st.1 with
  | none => st
  | some (i, n) =>
    (st.1.set i ⟨n.second, true⟩,
      st.2 + W.calc_deviation |hit_second - n.second| judge)

/-- Model of `NaiveScorer::evaluate` (src/rescore/naive_scorer.rs, lines
17-96).  The `assert!(is_sorted(hit_seconds))` on line 27 is modelled by
returning `none` (a panic); note that the source asserts only the hit
seconds, not the note seconds. -/
noncomputable def NaiveScorer_evaluate (W : Wife) (lane : NoteAndHitSeconds)
    (judge : Judge) : Option ScoringResult :=
  if is_sorted lane.hit_seconds then
    let notes := lane.note_seconds.map fun second => NoteState.mk second false
    let final := lane.hit_seconds.foldl (naiveHitStep W judge) (notes, 0)
    let num_misses := (final.1.filter fun n => !n.is_claimed).length
    some ⟨final.2 + W.miss_weight * num_misses, final.1.length⟩
  else none

/-- Modelled from the spec: `MatchingScorer::evaluate`
(src/rescore/matching_scorer.rs is absent from src/; only the
`mod matching_scorer;` declaration remains).  Spec §4.2: "both scorers assert
(fail fast) if given unsorted input"; the assignment algorithm itself is
deliberately left abstract (`body`), as the spec declares it
implementation-sensitive. -/
noncomputable def MatchingScorer_evaluate
    (body : Wife → NoteAndHitSeconds → Judge → ScoringResult) (W : Wife)
    (lane : NoteAndHitSeconds) (judge : Judge) : Option ScoringResult :=
  if is_sorted lane.note_seconds ∧ is_sorted lane.hit_seconds then
    some (body W lane judge)
  else none

/-! ### The spec's reference description of the naive scorer (§4.2 / C2),
written from the specification's wording. -/

/-- Spec §4.2: eligibility of an `(index, note)` pair for a hit — unclaimed
and within the judge's bad window. -/
noncomputable def specEligible (judge : Judge) (hit_second : ℝ)
    (x : ℕ × NoteState) : Bool :=
  decide (|hit_second - x.2.second| ≤ judge.bad_window) && !x.2.is_claimed

/-- Spec §4.2: "scan *all* unclaimed notes and pick the one with minimum
absolute deviation, subject to it being within the judge's bad window". -/
noncomputable def specFindBest (judge : Judge) (hit_second : ℝ)
    (notes : List NoteState) : Option (ℕ × NoteState) :=
  List.argmin (fun x => |hit_second - x.2.second|)
    (notes.enum.filter (specEligible judge hit_second))

/-- Spec §4.2: claim the picked note and add the Wife curve value of its
deviation; a hit with no eligible note contributes nothing. -/
noncomputable def specHitStep (W : Wife) (judge : Judge)
    (st : List NoteState × ℝ) (hit_second : ℝ) : List NoteState × ℝ :=
  match specFindBest judge hit_second st.1 with
  | none => st
  | some (i, n) =>
    (st.1.set i ⟨n.second, true⟩,
      st.2 + W.calc_deviation |hit_second - n.second| judge)

/-- The spec's reference result for the naive scorer: process hits in input
order, then give every still-unclaimed note the fixed miss weight; the
judged-note count equals the number of notes. -/
noncomputable def spec_naive_result (W : Wife) (lane : NoteAndHitSeconds)
    (judge : Judge) : ScoringResult :=
  let notes := lane.note_seconds.map fun second => NoteState.mk second false
  let final := lane.hit_seconds.foldl (specHitStep W judge) (notes, 0)
  let num_misses := (final.1.filter fun n => !n.is_claimed).length
  ⟨final.2 + W.miss_weight * num_misses, lane.note_seconds.length⟩

/-! ## Rescore orchestrator (src/rescore/mod.rs) -/

/-- The IEEE quotient `wifescore_sum / num_judged_notes as f32`: division by
zero yields NaN for a zero numerator and a signed infinity otherwise. -/
noncomputable def fdivByCount (sum : ℝ) (count : ℕ) : FVal ℝ :=
  if count = 0 then
    if sum = 0 then .nan else if 0 < sum then .inf else .neginf
  else .fin (sum / count)

/-- Accumulation of the four per-lane scoring results (the `for lane in
lanes` loop of `rescore`): each lane first has both sortedness assertions
checked, then is evaluated; `none` models a panic (failed assertion or a
panic inside the scorer). -/
noncomputable def rescoreLanes
    (eval : NoteAndHitSeconds → Judge → Option ScoringResult)
    (judge : Judge) : List NoteAndHitSeconds → Option (ℝ × ℕ)
  | [] => some (0, 0)
  | lane :: rest =>
    if is_sorted lane.hit_seconds ∧ is_sorted lane.note_seconds then
      match eval lane judge, rescoreLanes eval judge rest with
      | some r, some (s, c) => some (r.wifescore_sum + s, r.num_judged_notes + c)
      | _, _ => none
    else none

/-- Model of `rescore` (src/rescore/mod.rs, lines 30-59).  The scoring system
`S` and wife `W` generics are the `eval` function and `W` parameters.  The
final `.expect(...)` is a panic when `from_proportion` returns `None`; both
panics are modelled as `none`. -/
noncomputable def rescore (eval : NoteAndHitSeconds → Judge → Option ScoringResult)
    (W : Wife) (lanes : List NoteAndHitSeconds) (num_mine_hits num_hold_drops : ℕ)
    (judge : Judge) : Option (Wifescore ℝ) :=
  match rescoreLanes eval judge lanes with
  | none => none
  | some (s, c) =>
    let s := s + W.mine_hit_weight * num_mine_hits
    let s := s + W.hold_drop_weight * num_hold_drops
    Wifescore.from_proportion (fdivByCount s c)

/-! ## Skill timeline (src/lib.rs, lines 149-217) -/

/-- The boundary-collecting loop of `SkillTimeline::calculate`
(src/lib.rs, lines 177-197): `n` is the number of scores pushed so far
(`rating_vectors[0].len()`), `prev` is `prev_day_id`.  Note the source pushes
the current score *before* testing for a group boundary, so a boundary entry
records a count that already includes the first score of the next group. -/
def dayIndicesAux {K : Type} [DecidableEq K] :
    List (K × Skillsets7) → ℕ → Option K → List (K × ℕ)
  | [], _, none => []
  | [], n, some prev => [(prev, n)]
  | (day_id, _) :: rest, n, prev =>
    let n := n + 1
    match prev with
    | some prev =>
      if prev ≠ day_id then (prev, n) :: dayIndicesAux rest n (some day_id)
      else dayIndicesAux rest n (some day_id)
    | none => dayIndicesAux rest n (some day_id)

/-- The `day_indices` list of `SkillTimeline::calculate`. -/
def dayIndices {K : Type} [DecidableEq K] (l : List (K × Skillsets7)) :
    List (K × ℕ) :=
  dayIndicesAux l 0 none

/-- The per-boundary snapshot of `SkillTimeline::calculate` (src/lib.rs,
lines 199-214): each skillset dimension is rated over the first `i` pushed
values (`rating_vectors[j][..i]`), then the overall is derived. -/
noncomputable def timelineSnapshot (calcFn : List ℝ → ℝ)
    (overallFn : Skillsets7 → Skillsets8) (l : List (K × Skillsets7))
    (i : ℕ) : Skillsets8 :=
  overallFn
    ⟨calcFn ((l.take i).map fun x => x.2.stream),
      calcFn ((l.take i).map fun x => x.2.jumpstream),
      calcFn ((l.take i).map fun x => x.2.handstream),
      calcFn ((l.take i).map fun x => x.2.stamina),
      calcFn ((l.take i).map fun x => x.2.jackspeed),
      calcFn ((l.take i).map fun x => x.2.chordjack),
      calcFn ((l.take i).map fun x => x.2.technical)⟩

/-- Model of `SkillTimeline::calculate` (src/lib.rs, lines 149-217): the
current (`pre_070 = false`) or legacy rating functions, one timeline entry
per collected boundary. -/
noncomputable def SkillTimeline_calculate {K : Type} [DecidableEq K]
    (erfc : ℝ → ℝ) (l : List (K × Skillsets7)) (pre_070 : Bool) :
    List (K × Skillsets8) :=
  let calcFn := if pre_070 then calculate_player_skillset_rating_pre_070 erfc
    else calculate_player_skillset_rating erfc
  let overallFn := if pre_070 then Skillsets7.calc_player_overall_pre_070
    else Skillsets7.calc_player_overall erfc
  (dayIndices l).map fun x =>
    (x.1, timelineSnapshot calcFn overallFn l x.2)

/-! ## Concrete instances used by the claim theorems -/

/-- The concrete skillset vector used to refute C4. -/
def exampleSkillsets : Skillsets7 :=
  ⟨1, 0, 0, 0, 0, 0, 0⟩

/-- A lane with no notes and no hits. -/
def emptyLane : NoteAndHitSeconds := ⟨[], []⟩

/-- A grouped input, flattened to the score stream `SkillTimeline::calculate`
receives: each `(key, scores)` group contributes its scores tagged with the
key, in order. -/
def flattenGroups {K : Type} (groups : List (K × List Skillsets7)) :
    List (K × Skillsets7) :=
  groups.flatMap fun g => g.2.map (Prod.mk g.1)

/-- The boundary list the source actually produces, described per group:
after a group ending with `n` scores consumed, a FOLLOWING group causes the
boundary entry `(key, n + 1)` — the count includes the first score of the
next group — while the final group's entry `(key, n)` covers exactly
everything. -/
def expectedTail {K : Type} (n : ℕ) (kp : K) :
    List (K × List Skillsets7) → List (K × ℕ)
  | [] => [(kp, n)]
  | (k, items) :: rest => (kp, n + 1) :: expectedTail (n + items.length) k rest

/-- A concrete realisation of the abstract `erfc` parameter used for the C9
counterexample: contributions `2/erfc(x) − 2` become `-1` (discarded) for
`x ≤ 0` and `4` (kept) for `x > 0`. -/
noncomputable def erfcStep : ℝ → ℝ := fun x => if x ≤ 0 then 2 else 1 / 3

/-- An all-zero skillset vector. -/
def ssA : Skillsets7 := ⟨0, 0, 0, 0, 0, 0, 0⟩

/-- An all-100 skillset vector. -/
def ssB : Skillsets7 := ⟨100, 100, 100, 100, 100, 100, 100⟩

/-- Three scores in group 0 followed by two scores in group 1. -/
def input5 : List (ℕ × Skillsets7) :=
  [(0, ssA), (0, ssA), (0, ssA), (1, ssB), (1, ssB)]

/-! ## Helper lemmas for the rating calculator -/

theorem filter_sum_eq_specPowerSum (erfc : ℝ → ℝ) (dm R : ℝ) (l : List ℝ) :
    ((l.map fun v => 2 / erfc (dm * (v - R)) - 2).filter
      fun x => decide ((0 : ℝ) < x)).sum = specPowerSum erfc dm R l := by
  induction l with
  | nil => simp [specPowerSum]
  | cons v rest ih =>
    simp only [List.map_cons, List.filter_cons, specPowerSum]
    by_cases h : (0 : ℝ) < 2 / erfc (dm * (v - R)) - 2
    · simp [h, ih]
    · simp [h, ih]

theorem okay_fun_eq (erfc : ℝ → ℝ) (ssrs : List ℝ) (dm : ℝ) :
    (fun r => is_rating_okay erfc r ssrs dm) = specOkay erfc dm ssrs := by
  funext r
  unfold is_rating_okay specOkay
  rw [filter_sum_eq_specPowerSum]

theorem calcLoop_iterate (okay : ℝ → Prop) :
    ∀ (n : ℕ) (r s : ℝ),
      calcLoop okay n r s =
        ((specStep okay)^[n] (r, s)).1 + 2 * ((specStep okay)^[n] (r, s)).2 := by
  intro n
  induction n with
  | zero =>
    intro r s
    simp [calcLoop]
    ring
  | succ n ih =>
    intro r s
    rw [calcLoop, Function.iterate_succ_apply, ih]
    rfl

theorem whileAdd_of_okay (okay : ℝ → Prop) (r s : ℝ) (h : okay (r + s)) :
    whileAdd okay r s = r := by
  unfold whileAdd
  have h0 : (0 : ℕ) ∈ {n : ℕ | okay (r + n * s + s)} := by
    simp only [Set.mem_setOf_eq, Nat.cast_zero, zero_mul, add_zero]
    exact h
  rw [Nat.sInf_eq_zero.mpr (Or.inl h0)]
  simp

theorem calcLoop_of_okay (okay : ℝ → Prop) (h : ∀ r, okay r) :
    ∀ (n : ℕ) (r s : ℝ), calcLoop okay n r s = r + s / 2 ^ n * 2 := by
  intro n
  induction n with
  | zero =>
    intro r s
    simp [calcLoop]
  | succ n ih =>
    intro r s
    rw [calcLoop, whileAdd_of_okay okay r s (h _), ih]
    have : s / 2 / 2 ^ n = s / 2 ^ (n + 1) := by
      rw [pow_succ]
      ring
    rw [this]

theorem is_rating_okay_nil (erfc : ℝ → ℝ) (dm : ℝ) (r : ℝ) :
    is_rating_okay erfc r [] dm := by
  unfold is_rating_okay
  simpa using Real.rpow_pos_of_pos (by norm_num) (r * 0.1)

theorem is_rating_okay_const_one (r : ℝ) (ssrs : List ℝ) (dm : ℝ) :
    is_rating_okay (fun _ => 1) r ssrs dm := by
  unfold is_rating_okay
  have hfil :
      ((ssrs.map fun ssr => 2 / (1 : ℝ) - 2).filter
        fun x => decide ((0 : ℝ) < x)) = [] := by
    rw [List.filter_eq_nil_iff]
    intro a ha
    rcases List.mem_map.mp ha with ⟨v, _, rfl⟩
    simp
  simpa [hfil] using Real.rpow_pos_of_pos (by norm_num) (r * 0.1)

/-! ## Claim theorems -/

/-- C1: for every input list, every `(final_multiplier, delta_multiplier)`
pair, and every realisation of the external `erfc` function, `calc_rating`
returns exactly the value of the spec's reference procedure (rating 0,
resolution 10.24, exactly 11 halving iterations, final `+ 2 × resolution`
bias, final multiplier; a candidate is okay iff the sum of the strictly
positive contributions `2/erfc(δ·(v−R)) − 2` is strictly below `2^(R·0.1)`),
and the four public entry points are `calc_rating` at the four documented
multiplier pairs. -/
theorem C1_calc_rating_matches_reference (erfc : ℝ → ℝ) (ssrs : List ℝ)
    (final_multiplier delta_multiplier : ℝ) :
    calc_rating erfc ssrs final_multiplier delta_multiplier =
        spec_calc_rating erfc ssrs final_multiplier delta_multiplier
      ∧ calculate_score_overall erfc ssrs = calc_rating erfc ssrs 1.11 0.25
      ∧ calculate_player_skillset_rating erfc ssrs =
          calc_rating erfc ssrs 1.05 0.1
      ∧ calculate_player_skillset_rating_pre_070 erfc ssrs =
          calc_rating erfc ssrs 1.04 0.1
      ∧ calculate_player_overall erfc ssrs = calc_rating erfc ssrs 1.125 0.1 := by
  refine ⟨?_, rfl, rfl, rfl, rfl⟩
  unfold calc_rating spec_calc_rating
  rw [okay_fun_eq erfc ssrs delta_multiplier, calcLoop_iterate]

/-- C10: on the empty input list the power sum is 0, every candidate is
immediately okay, so `calc_rating` returns exactly
`(2 × (10.24 / 2^11)) × final_multiplier = 0.01 × final_multiplier`; in
particular the player skillset rating of an empty slice is exactly 0.0105 in
the real-valued model. -/
theorem C10_calc_rating_empty (erfc : ℝ → ℝ) (final_multiplier delta_multiplier : ℝ) :
    calc_rating erfc [] final_multiplier delta_multiplier =
        2 * (10.24 / 2 ^ 11) * final_multiplier
      ∧ (2 : ℝ) * (10.24 / 2 ^ 11) = 0.01
      ∧ calculate_player_skillset_rating erfc [] = 0.0105 := by
  have key : ∀ fm dm : ℝ, calc_rating erfc [] fm dm = 0.01 * fm := by
    intro fm dm
    unfold calc_rating
    rw [calcLoop_of_okay _ (fun r => is_rating_okay_nil erfc dm r)]
    norm_num
  refine ⟨?_, by norm_num, ?_⟩
  · rw [key]
    norm_num
  · unfold calculate_player_skillset_rating
    rw [key]
    norm_num

/-- C6 (code bug): the body of `Judge::is_cb` is `deviation <= great_window`:
no absolute value, inverted comparison.  On J4 a deviation of `0` (a
marvelous hit, `|0| ≤ great_window`) is reported as a combo breaker, and a
deviation of `10` (far beyond every window, `|10| > great_window`) is
reported as not a combo breaker — the exact opposite of the claimed
`|deviation| > great_window` behaviour. -/
theorem C6_is_cb_inverted :
    J4.is_cb 0 ∧ ¬ J4.is_cb 10
      ∧ ¬ |(0 : ℝ)| > J4.great_window ∧ |(10 : ℝ)| > J4.great_window := by
  refine ⟨?_, ?_, ?_, ?_⟩ <;> simp [Judge.is_cb, J4] <;> norm_num

/-- C7 (counterexample): the alternate `Wifescore::from_proportion` in
src/structs/mod.rs fails on `-∞` even though `-∞` is not NaN and does not
exceed 1.0, so "succeeds exactly when p is not NaN and p does not exceed
1.0" is false for it. -/
theorem C7_counterexample :
    Wifescore.from_proportion_alt (FVal.neginf : FVal ℚ) = none
      ∧ (FVal.neginf : FVal ℚ).isNan = false
      ∧ (FVal.neginf : FVal ℚ).gtOne = false := by
  refine ⟨rfl, rfl, rfl⟩

/-- C7 (amended): the primary `from_proportion` (src/structs.rs) succeeds
exactly when the proportion is neither NaN nor greater than 1.0 (so `-∞` is
accepted); `from_percent` is `from_proportion` of the value divided by 100;
every constructed Wifescore is not NaN and not above 1.0; the alternate
version (src/structs/mod.rs) additionally rejects infinities; and both
reject 1.5 and NaN. -/
theorem C7_amended {α : Type} [LinearOrderedField α] :
    (∀ p : FVal α,
        (Wifescore.from_proportion p).isSome ↔
          p.isNan = false ∧ p.gtOne = false)
      ∧ (∀ p : FVal α,
          Wifescore.from_percent p = Wifescore.from_proportion p.div100)
      ∧ (∀ (p : FVal α) (w : Wifescore α),
          Wifescore.from_proportion p = some w →
            w.proportion.isNan = false ∧ w.proportion.gtOne = false)
      ∧ (∀ p : FVal α,
          (Wifescore.from_proportion_alt p).isSome ↔
            p.isInfinite = false ∧ p.isNan = false ∧ p.gtOne = false)
      ∧ Wifescore.from_proportion (FVal.fin (1.5 : α)) = none
      ∧ Wifescore.from_proportion (FVal.nan : FVal α) = none
      ∧ Wifescore.from_proportion_alt (FVal.fin (1.5 : α)) = none
      ∧ Wifescore.from_proportion_alt (FVal.nan : FVal α) = none := by
  refine ⟨?_, fun p => rfl, ?_, ?_, ?_, rfl, ?_, rfl⟩
  · intro p
    unfold Wifescore.from_proportion
    constructor
    · intro h
      by_cases h1 : p.isNan <;> by_cases h2 : p.gtOne <;>
        simp_all
    · rintro ⟨h1, h2⟩
      simp [h1, h2]
  · intro p w h
    by_cases h1 : p.isNan = true
    · exact absurd h (by simp [Wifescore.from_proportion, h1])
    · by_cases h2 : p.gtOne = true
      · exact absurd h (by simp [Wifescore.from_proportion, h1, h2])
      · have hw : w = ⟨p⟩ := by
          simp only [Wifescore.from_proportion, Bool.not_eq_true] at h1 h2
          simp [h1, h2, Wifescore.from_proportion] at h
          exact h.symm
        subst hw
        exact ⟨by simpa using h1, by simpa using h2⟩
  · intro p
    unfold Wifescore.from_proportion_alt
    constructor
    · intro h
      by_cases h0 : p.isInfinite <;> by_cases h1 : p.isNan <;>
        by_cases h2 : p.gtOne <;> simp_all
    · rintro ⟨h0, h1, h2⟩
      simp [h0, h1, h2]
  · unfold Wifescore.from_proportion
    have : (FVal.fin (1.5 : α)).gtOne = true := by
      simp [FVal.gtOne]
      norm_num
    simp [this, FVal.isNan]
  · unfold Wifescore.from_proportion_alt
    have : (FVal.fin (1.5 : α)).gtOne = true := by
      simp [FVal.gtOne]
      norm_num
    simp [this, FVal.isNan, FVal.isInfinite]

/-- C7 (witness for the amended theorem): instantiating the
constructed-Wifescore invariant at the concrete proportion 1/2 over ℚ. -/
theorem C7_amended_witness :
    Wifescore.from_proportion (FVal.fin ((1 : ℚ) / 2)) =
        some ⟨FVal.fin ((1 : ℚ) / 2)⟩
      ∧ (FVal.fin ((1 : ℚ) / 2)).isNan = false
      ∧ (FVal.fin ((1 : ℚ) / 2)).gtOne = false := by
  have h : Wifescore.from_proportion (FVal.fin ((1 : ℚ) / 2)) =
      some ⟨FVal.fin ((1 : ℚ) / 2)⟩ := by
    have hlt : ¬ (1 : ℚ) < 1 / 2 := by norm_num
    simp [Wifescore.from_proportion, FVal.isNan, FVal.gtOne, hlt]
    norm_num
  exact ⟨h, (C7_amended (α := ℚ)).2.2.1 (FVal.fin ((1 : ℚ) / 2)) _ h⟩

/-- C4 (counterexample): with the erfc realisation `fun _ => 1` every
candidate rating is okay, so every `calc_rating` run returns
`0.01 × final_multiplier`; on the skillset vector `(1,0,0,0,0,0,0)` the
player overall is therefore `0.01125`, which is NOT the max of the aggregate
and the largest skillset (that max is 1), and is strictly below the largest
input skillset — refuting "every overall-from-seven-skillsets computation
returns the maximum of the aggregate and the single largest input". -/
theorem C4_counterexample :
    (Skillsets7.calc_player_overall (fun _ => 1) exampleSkillsets).overall ≠
        max (calculate_player_overall (fun _ => 1) exampleSkillsets.toList)
          exampleSkillsets.max_skillset
      ∧ (Skillsets7.calc_player_overall (fun _ => 1) exampleSkillsets).overall <
          exampleSkillsets.stream := by
  have key : calculate_player_overall (fun _ => 1) exampleSkillsets.toList =
      0.01 * 1.125 := by
    unfold calculate_player_overall calc_rating
    rw [calcLoop_of_okay _ (fun r => is_rating_okay_const_one r _ _)]
    norm_num
  have hover : (Skillsets7.calc_player_overall (fun _ => 1) exampleSkillsets).overall =
      0.01 * 1.125 := key
  have hmax : exampleSkillsets.max_skillset = 1 := by
    unfold Skillsets7.max_skillset exampleSkillsets
    norm_num
  constructor
  · rw [hover, key, hmax]
    norm_num
  · rw [hover]
    unfold exampleSkillsets
    norm_num

/-- C4 (amended): only the per-score/chart overall `calc_ssr_overall` takes
the max of the iterative aggregate and the largest input skillset (and is
therefore at least each individual skillset); the player overall (current
formula) returns the bare aggregate `calculate_player_overall` with no such
max. -/
theorem C4_amended (erfc : ℝ → ℝ) (s : Skillsets7) :
    (s.calc_ssr_overall erfc).overall =
        max (calculate_score_overall erfc s.toList) s.max_skillset
      ∧ s.stream ≤ (s.calc_ssr_overall erfc).overall
      ∧ s.jumpstream ≤ (s.calc_ssr_overall erfc).overall
      ∧ s.handstream ≤ (s.calc_ssr_overall erfc).overall
      ∧ s.stamina ≤ (s.calc_ssr_overall erfc).overall
      ∧ s.jackspeed ≤ (s.calc_ssr_overall erfc).overall
      ∧ s.chordjack ≤ (s.calc_ssr_overall erfc).overall
      ∧ s.technical ≤ (s.calc_ssr_overall erfc).overall
      ∧ (s.calc_player_overall erfc).overall =
          calculate_player_overall erfc s.toList := by
  have hmax : ∀ x : ℝ, x ≤ s.max_skillset → x ≤ (s.calc_ssr_overall erfc).overall :=
    fun x hx => le_trans hx (le_max_right _ _)
  refine ⟨rfl, ?_, ?_, ?_, ?_, ?_, ?_, ?_, rfl⟩ <;>
    apply hmax <;> simp [Skillsets7.max_skillset, le_max_iff]

/-! ## C5: Wife miss-threshold behaviour -/

theorem wife2_gt_neg4 (dev : ℝ) (j : Judge) (h : 0 < j.timing_scale) :
    -4 < wife2_calc_deviation dev j := by
  show -4 <
    ((2 - -8) *
        (1 -
          (1 - (2 : ℝ) ^
            (-|dev * 1000| * |dev * 1000| /
              (95 * j.timing_scale * (95 * j.timing_scale)))) ^ 2) + -8) / 2
  have ha0 : (0 : ℝ) < 95 * j.timing_scale := by positivity
  have he : -|dev * 1000| * |dev * 1000| /
      (95 * j.timing_scale * (95 * j.timing_scale)) ≤ 0 := by
    apply div_nonpos_of_nonpos_of_nonneg
    · nlinarith [abs_nonneg (dev * 1000)]
    · positivity
  have h1 : (2 : ℝ) ^
      (-|dev * 1000| * |dev * 1000| /
        (95 * j.timing_scale * (95 * j.timing_scale))) ≤ 1 :=
    Real.rpow_le_one_of_one_le_of_nonpos one_le_two he
  have h2 : 0 < (2 : ℝ) ^
      (-|dev * 1000| * |dev * 1000| /
        (95 * j.timing_scale * (95 * j.timing_scale))) :=
    Real.rpow_pos_of_pos two_pos _
  set p := (2 : ℝ) ^
    (-|dev * 1000| * |dev * 1000| /
      (95 * j.timing_scale * (95 * j.timing_scale))) with hp
  nlinarith [sq_nonneg (1 - p), sq_nonneg p]

/-- C5 (counterexample): on J4 the deviation `0.18` is at the judge's miss
threshold (the bad window, beyond which classification yields Miss), yet
`Wife2::calc_deviation` does not return the fixed miss weight −4.0 — its body
is a single curve with no miss cutoff. -/
theorem C5_counterexample :
    J4.bad_window ≤ |(0.18 : ℝ)|
      ∧ Wife2.miss_weight = -4
      ∧ wife2_calc_deviation 0.18 J4 ≠ -4
      ∧ Wife2.calc (Hit.hit 0.18) J4 ≠ -4 := by
  have hgt : -4 < wife2_calc_deviation 0.18 J4 := by
    apply wife2_gt_neg4
    show (0 : ℝ) < (1.00 : ℝ)
    norm_num
  refine ⟨?_, ?_, ?_, ?_⟩
  · show (0.18 : ℝ) ≤ |(0.18 : ℝ)|
    rw [abs_of_nonneg (by norm_num)]
  · show (-8 : ℝ) / 2 = -4
    norm_num
  · exact ne_of_gt hgt
  · exact ne_of_gt hgt

/-- C5 (amended): for every judge with a positive timing scale, the
spec-modelled Wife3 returns its fixed miss weight −2.75 for every deviation
at or beyond its miss threshold (180 ms × timing scale, matching the
repository's test fixtures), whereas Wife2 has no miss cutoff at all: its
curve value is strictly above −4.0 at every deviation, so a deviation at or
beyond the threshold never receives Wife2's fixed miss weight −4.0. -/
theorem C5_amended (curve : ℝ → Judge → ℝ) (j : Judge) (dev : ℝ)
    (h : 0 < j.timing_scale) :
    (180 * j.timing_scale ≤ |dev * 1000| →
        wife3_calc_deviation curve dev j = -2.75)
      ∧ (Wife3 curve).miss_weight = -2.75
      ∧ -4 < wife2_calc_deviation dev j
      ∧ wife2_calc_deviation dev j ≠ Wife2.miss_weight := by
  refine ⟨?_, rfl, wife2_gt_neg4 dev j h, ?_⟩
  · intro hthr
    unfold wife3_calc_deviation
    rw [if_pos hthr]
  · have hgt := wife2_gt_neg4 dev j h
    have hw : Wife2.miss_weight = -4 := by
      show (-8 : ℝ) / 2 = -4
      norm_num
    rw [hw]
    exact ne_of_gt hgt

/-- C5 (witness for the amended theorem): instantiated at J4 and deviation
0.18, which is exactly at the threshold. -/
theorem C5_amended_witness :
    (0 : ℝ) < J4.timing_scale
      ∧ wife3_calc_deviation (fun _ _ => 0) 0.18 J4 = -2.75
      ∧ -4 < wife2_calc_deviation 0.18 J4 := by
  have h : (0 : ℝ) < J4.timing_scale := by
    show (0 : ℝ) < (1.00 : ℝ)
    norm_num
  have main := C5_amended (fun _ _ => 0) J4 0.18 h
  refine ⟨h, main.1 ?_, main.2.2.1⟩
  show 180 * (1.00 : ℝ) ≤ |(0.18 : ℝ) * 1000|
  rw [abs_of_nonneg (by norm_num)]
  norm_num

/-! ## C2/C8: the naive scorer -/

theorem foldl_if_filter {α β : Type} (c : α → Bool) (g : β → α → β) :
    ∀ (l : List α) (acc : β),
      l.foldl (fun b x => if c x then g b x else b) acc =
        (l.filter c).foldl g acc := by
  intro l
  induction l with
  | nil => intro acc; rfl
  | cons x t ih =>
    intro acc
    rw [List.foldl_cons, List.filter_cons]
    by_cases h : c x
    · rw [if_pos h, if_pos h, List.foldl_cons, ih]
    · rw [if_neg h, if_neg (by simpa using h), ih]

theorem noteStep_eq (judge : Judge) (hit_second : ℝ)
    (best : Option (ℕ × NoteState)) (x : ℕ × NoteState) :
    noteStep judge hit_second best x =
      if specEligible judge hit_second x then
        List.argAux (fun b c => |hit_second - b.2.second| < |hit_second - c.2.second|)
          best x
      else best := by
  unfold noteStep specEligible
  by_cases h1 : judge.bad_window < |hit_second - x.2.second|
  · rw [if_pos h1, if_neg]
    simp [not_le.mpr h1]
  · rw [if_neg h1]
    by_cases h2 : x.2.is_claimed
    · rw [if_pos h2, if_neg]
      simp [h2]
    · rw [if_neg h2, if_pos]
      · cases best with
        | none => rfl
        | some b => rfl
      · simp [h2, not_lt.mp h1]

theorem findBest_eq_specFindBest (judge : Judge) (hit_second : ℝ)
    (notes : List NoteState) :
    findBest judge hit_second notes = specFindBest judge hit_second notes := by
  unfold findBest specFindBest List.argmin
  have hfun : noteStep judge hit_second = fun best x =>
      if specEligible judge hit_second x then
        List.argAux (fun b c => |hit_second - b.2.second| < |hit_second - c.2.second|)
          best x
      else best := by
    funext best x
    exact noteStep_eq judge hit_second best x
  rw [hfun, foldl_if_filter]

theorem naiveHitStep_eq_specHitStep (W : Wife) (judge : Judge) :
    naiveHitStep W judge = specHitStep W judge := by
  funext st hit
  unfold naiveHitStep specHitStep
  rw [findBest_eq_specFindBest]

theorem hitFold_length (W : Wife) (judge : Judge) :
    ∀ (hits : List ℝ) (st : List NoteState × ℝ),
      ((hits.foldl (naiveHitStep W judge) st).1).length = st.1.length := by
  intro hits
  induction hits with
  | nil => intro st; rfl
  | cons h t ih =>
    intro st
    rw [List.foldl_cons, ih]
    unfold naiveHitStep
    cases hfb : findBest judge h st.1 with
    | none => rfl
    | some x =>
      cases x with
      | mk i n => simp [List.length_set]

/-- C2: on sorted inputs, `NaiveScorer::evaluate` returns exactly the spec's
reference result (each hit, in input order, claims the unclaimed minimum
absolute-deviation note within the bad window and contributes the Wife curve
value of that deviation; stray taps contribute nothing; unclaimed notes get
the miss weight), and the judged-note count equals the number of notes. -/
theorem C2_naive_scorer_matches_reference (W : Wife) (judge : Judge)
    (lane : NoteAndHitSeconds) (h1 : is_sorted lane.note_seconds)
    (h2 : is_sorted lane.hit_seconds) :
    NaiveScorer_evaluate W lane judge = some (spec_naive_result W lane judge)
      ∧ (spec_naive_result W lane judge).num_judged_notes =
          lane.note_seconds.length := by
  refine ⟨?_, rfl⟩
  unfold NaiveScorer_evaluate spec_naive_result
  rw [if_pos h2, naiveHitStep_eq_specHitStep]
  have hlen := hitFold_length W judge lane.hit_seconds
    (lane.note_seconds.map fun second => NoteState.mk second false, 0)
  rw [naiveHitStep_eq_specHitStep] at hlen
  simp only [List.length_map] at hlen
  dsimp only
  rw [hlen]

/-- C2 (witness): the theorem instantiated on a two-note, one-hit J4 lane
with Wife2. -/
theorem C2_witness :
    is_sorted [(1 : ℝ), 2] ∧ is_sorted [(1.05 : ℝ)]
      ∧ NaiveScorer_evaluate Wife2 ⟨[1, 2], [1.05]⟩ J4 =
          some (spec_naive_result Wife2 ⟨[1, 2], [1.05]⟩ J4) := by
  have h1 : is_sorted [(1 : ℝ), 2] := by
    unfold is_sorted
    simp
  have h2 : is_sorted [(1.05 : ℝ)] := by
    unfold is_sorted
    simp
  exact ⟨h1, h2,
    (C2_naive_scorer_matches_reference Wife2 J4 ⟨[1, 2], [1.05]⟩ h1 h2).1⟩

/-- C8 (counterexample): `NaiveScorer::evaluate` asserts only that the hit
seconds are sorted.  On the unsorted note sequence `[2, 1]` (with an empty,
trivially sorted hit sequence) it does not abort: it returns a normal
`ScoringResult` scoring both notes as misses. -/
theorem C8_counterexample :
    ¬ is_sorted [(2 : ℝ), 1]
      ∧ NaiveScorer_evaluate Wife2 ⟨[2, 1], []⟩ J4 =
          some ⟨Wife2.miss_weight * 2, 2⟩ := by
  constructor
  · unfold is_sorted
    simp
  · unfold NaiveScorer_evaluate
    rw [if_pos (by unfold is_sorted; simp)]
    simp [List.foldl]

theorem rescoreLanes_none_of_unsorted
    (eval : NoteAndHitSeconds → Judge → Option ScoringResult) (judge : Judge)
    (lane : NoteAndHitSeconds) :
    ∀ lanes : List NoteAndHitSeconds, lane ∈ lanes →
      ¬ (is_sorted lane.hit_seconds ∧ is_sorted lane.note_seconds) →
      rescoreLanes eval judge lanes = none := by
  intro lanes
  induction lanes with
  | nil => intro hmem; exact absurd hmem (List.not_mem_nil lane)
  | cons l rest ih =>
    intro hmem hbad
    rcases List.mem_cons.mp hmem with rfl | hmem2
    · unfold rescoreLanes
      rw [if_neg hbad]
    · unfold rescoreLanes
      by_cases hsort : is_sorted l.hit_seconds ∧ is_sorted l.note_seconds
      · rw [if_pos hsort, ih hmem2 hbad]
        cases eval l judge <;> rfl
      · rw [if_neg hsort]

/-- C8 (amended): the naive scorer asserts only the sortedness of the hit
sequence (an unsorted note sequence alone is not detected, per the
counterexample); the spec-modelled matching scorer asserts both sequences;
and the `rescore` orchestrator asserts both sequences of every lane, so any
unsorted lane sequence aborts the whole rescore. -/
theorem C8_amended (W : Wife)
    (body : Wife → NoteAndHitSeconds → Judge → ScoringResult)
    (eval : NoteAndHitSeconds → Judge → Option ScoringResult)
    (lanes : List NoteAndHitSeconds) (lane : NoteAndHitSeconds)
    (num_mine_hits num_hold_drops : ℕ) (judge : Judge) :
    (¬ is_sorted lane.hit_seconds → NaiveScorer_evaluate W lane judge = none)
      ∧ (¬ (is_sorted lane.note_seconds ∧ is_sorted lane.hit_seconds) →
          MatchingScorer_evaluate body W lane judge = none)
      ∧ (lane ∈ lanes →
          ¬ (is_sorted lane.hit_seconds ∧ is_sorted lane.note_seconds) →
          rescore eval W lanes num_mine_hits num_hold_drops judge = none) := by
  refine ⟨?_, ?_, ?_⟩
  · intro h
    unfold NaiveScorer_evaluate
    rw [if_neg h]
  · intro h
    unfold MatchingScorer_evaluate
    rw [if_neg h]
  · intro hmem hbad
    unfold rescore
    rw [rescoreLanes_none_of_unsorted eval judge lane lanes hmem hbad]

/-- C8 (witness for the amended theorem): instantiated on a lane with hit
seconds `[2, 1]` (unsorted). -/
theorem C8_amended_witness :
    NaiveScorer_evaluate Wife2 ⟨[1, 2], [2, 1]⟩ J4 = none
      ∧ MatchingScorer_evaluate (fun _ _ _ => ⟨0, 0⟩) Wife2 ⟨[1, 2], [2, 1]⟩ J4 =
          none
      ∧ rescore (NaiveScorer_evaluate Wife2) Wife2 [⟨[1, 2], [2, 1]⟩] 0 0 J4 =
          none := by
  have hbad : ¬ is_sorted [(2 : ℝ), 1] := by
    unfold is_sorted
    simp
  have main := C8_amended Wife2 (fun _ _ _ => ⟨0, 0⟩)
    (NaiveScorer_evaluate Wife2) [⟨[1, 2], [2, 1]⟩] ⟨[1, 2], [2, 1]⟩ 0 0 J4
  exact ⟨main.1 hbad, main.2.1 fun h => hbad h.2,
    main.2.2 (List.mem_singleton.mpr rfl) fun h => hbad h.1⟩

/-! ## C3: the rescore orchestrator -/

theorem naive_evaluate_emptyLane :
    NaiveScorer_evaluate Wife2 emptyLane J4 = some ⟨0, 0⟩ := by
  unfold NaiveScorer_evaluate emptyLane
  rw [if_pos (by unfold is_sorted; simp)]
  simp [List.foldl]

theorem rescoreLanes_empty :
    rescoreLanes (NaiveScorer_evaluate Wife2) J4
      [emptyLane, emptyLane, emptyLane, emptyLane] = some (0, 0) := by
  have hsort : is_sorted emptyLane.hit_seconds ∧ is_sorted emptyLane.note_seconds := by
    unfold emptyLane is_sorted
    simp
  simp [rescoreLanes, hsort, naive_evaluate_emptyLane]

/-- C3 (counterexample): four empty lanes and one mine hit produce zero
judged notes and a negative score sum; the quotient is `-∞`, which
`from_proportion` accepts, so `rescore` RETURNS a Wifescore instead of
failing — refuting "whenever the input produces a degenerate case (zero
judged notes, …) rescore fails … instead of returning a Wifescore". -/
theorem C3_counterexample :
    rescoreLanes (NaiveScorer_evaluate Wife2) J4
        [emptyLane, emptyLane, emptyLane, emptyLane] = some (0, 0)
      ∧ rescore (NaiveScorer_evaluate Wife2) Wife2
          [emptyLane, emptyLane, emptyLane, emptyLane] 1 0 J4 =
            some ⟨FVal.neginf⟩ := by
  refine ⟨rescoreLanes_empty, ?_⟩
  unfold rescore
  rw [rescoreLanes_empty]
  have htot : (0 : ℝ) + Wife2.mine_hit_weight * ((1 : ℕ) : ℝ) +
      Wife2.hold_drop_weight * ((0 : ℕ) : ℝ) = -4 := by
    show (0 : ℝ) + -8 / 2 * ((1 : ℕ) : ℝ) + -6 / 2 * ((0 : ℕ) : ℝ) = -4
    norm_num
  dsimp only
  rw [htot]
  unfold fdivByCount
  rw [if_pos rfl, if_neg (by norm_num), if_neg (by norm_num)]
  unfold Wifescore.from_proportion
  simp [FVal.isNan, FVal.gtOne]

/-- C3 (amended): `rescore` sums the per-lane results, adds the weighted mine
and hold-drop penalties, divides by the total judged-note count and wraps the
quotient via `Wifescore::from_proportion`; the failure is a panic (the
`.expect(...)` call), not a propagated recoverable error, and it happens
exactly when `from_proportion` rejects the quotient (NaN — zero judged notes
with a zero sum — or a value above 1.0); zero judged notes together with a
negative sum yield the quotient `-∞`, which `from_proportion` accepts, so
`rescore` returns a Wifescore. -/
theorem C3_amended (eval : NoteAndHitSeconds → Judge → Option ScoringResult)
    (W : Wife) (lanes : List NoteAndHitSeconds)
    (num_mine_hits num_hold_drops : ℕ) (judge : Judge) (s : ℝ) (c : ℕ)
    (hlanes : rescoreLanes eval judge lanes = some (s, c)) :
    rescore eval W lanes num_mine_hits num_hold_drops judge =
        Wifescore.from_proportion
          (fdivByCount
            (s + W.mine_hit_weight * num_mine_hits +
              W.hold_drop_weight * num_hold_drops) c)
      ∧ (c = 0 →
          s + W.mine_hit_weight * num_mine_hits +
              W.hold_drop_weight * num_hold_drops < 0 →
          rescore eval W lanes num_mine_hits num_hold_drops judge =
            some ⟨FVal.neginf⟩)
      ∧ (c = 0 →
          s + W.mine_hit_weight * num_mine_hits +
              W.hold_drop_weight * num_hold_drops = 0 →
          rescore eval W lanes num_mine_hits num_hold_drops judge = none) := by
  have hmain : rescore eval W lanes num_mine_hits num_hold_drops judge =
      Wifescore.from_proportion
        (fdivByCount
          (s + W.mine_hit_weight * num_mine_hits +
            W.hold_drop_weight * num_hold_drops) c) := by
    unfold rescore
    rw [hlanes]
  refine ⟨hmain, ?_, ?_⟩
  · intro hc hneg
    rw [hmain, hc]
    unfold fdivByCount
    rw [if_pos rfl, if_neg (ne_of_lt hneg), if_neg (not_lt.mpr (le_of_lt hneg))]
    unfold Wifescore.from_proportion
    simp [FVal.isNan, FVal.gtOne]
  · intro hc hzero
    rw [hmain, hc]
    unfold fdivByCount
    rw [if_pos rfl, if_pos hzero]
    unfold Wifescore.from_proportion
    simp [FVal.isNan]

/-- C3 (witness for the amended theorem): instantiated on four empty lanes
with one mine hit (zero judged notes, negative sum). -/
theorem C3_amended_witness :
    rescore (NaiveScorer_evaluate Wife2) Wife2
        [emptyLane, emptyLane, emptyLane, emptyLane] 1 0 J4 =
      Wifescore.from_proportion
        (fdivByCount
          ((0 : ℝ) + Wife2.mine_hit_weight * ((1 : ℕ) : ℝ) +
            Wife2.hold_drop_weight * ((0 : ℕ) : ℝ)) 0) :=
  (C3_amended (NaiveScorer_evaluate Wife2) Wife2
    [emptyLane, emptyLane, emptyLane, emptyLane] 1 0 J4 0 0
    rescoreLanes_empty).1

/-! ## C9: the skill timeline -/

theorem dayIndicesAux_cons_some {K : Type} [DecidableEq K] (k' : K)
    (s : Skillsets7) (rest : List (K × Skillsets7)) (n : ℕ) (kp : K) :
    dayIndicesAux ((k', s) :: rest) n (some kp) =
      if kp ≠ k' then (kp, n + 1) :: dayIndicesAux rest (n + 1) (some k')
      else dayIndicesAux rest (n + 1) (some k') := rfl

theorem dayIndicesAux_cons_none {K : Type} [DecidableEq K] (k' : K)
    (s : Skillsets7) (rest : List (K × Skillsets7)) (n : ℕ) :
    dayIndicesAux ((k', s) :: rest) n none =
      dayIndicesAux rest (n + 1) (some k') := rfl

theorem expectedTail_ne_nil {K : Type} (n : ℕ) (kp : K)
    (groups : List (K × List Skillsets7)) : expectedTail n kp groups ≠ [] := by
  cases groups with
  | nil => simp [expectedTail]
  | cons g rest =>
    cases g
    simp [expectedTail]

theorem getLast?_cons_of_ne_nil {α : Type} (a : α) {l : List α} (h : l ≠ []) :
    (a :: l).getLast? = l.getLast? := by
  cases l with
  | nil => exact absurd rfl h
  | cons b t => exact List.getLast?_cons_cons

theorem expectedTail_length {K : Type} :
    ∀ (groups : List (K × List Skillsets7)) (n : ℕ) (kp : K),
      (expectedTail n kp groups).length = groups.length + 1 := by
  intro groups
  induction groups with
  | nil => intro n kp; rfl
  | cons g rest ih =>
    intro n kp
    cases g with
    | mk k items => simp [expectedTail, ih]

theorem expectedTail_keys {K : Type} :
    ∀ (groups : List (K × List Skillsets7)) (n : ℕ) (kp : K),
      (expectedTail n kp groups).map Prod.fst = kp :: groups.map Prod.fst := by
  intro groups
  induction groups with
  | nil => intro n kp; rfl
  | cons g rest ih =>
    intro n kp
    cases g with
    | mk k items => simp [expectedTail, ih]

theorem expectedTail_getLast_snd {K : Type} :
    ∀ (groups : List (K × List Skillsets7)) (n : ℕ) (kp : K),
      ((expectedTail n kp groups).getLast?).map Prod.snd =
        some (n + (groups.map fun g => g.2.length).sum) := by
  intro groups
  induction groups with
  | nil => intro n kp; simp [expectedTail]
  | cons g rest ih =>
    intro g0 kp
    cases g with
    | mk k items =>
      show ((expectedTail g0 kp ((k, items) :: rest)).getLast?).map Prod.snd = _
      rw [show expectedTail g0 kp ((k, items) :: rest) =
        (kp, g0 + 1) :: expectedTail (g0 + items.length) k rest from rfl]
      rw [getLast?_cons_of_ne_nil _ (expectedTail_ne_nil _ _ _), ih]
      simp
      omega

theorem dayIndicesAux_run {K : Type} [DecidableEq K] :
    ∀ (items : List Skillsets7) (rest : List (K × Skillsets7)) (k : K) (n : ℕ),
      dayIndicesAux (items.map (Prod.mk k) ++ rest) n (some k) =
        dayIndicesAux rest (n + items.length) (some k) := by
  intro items
  induction items with
  | nil => intro rest k n; simp
  | cons s t ih =>
    intro rest k n
    rw [List.map_cons, List.cons_append, dayIndicesAux_cons_some,
      if_neg (by simp), ih]
    have : n + 1 + t.length = n + (s :: t).length := by
      simp
      omega
    rw [this]

theorem dayIndicesAux_flatten {K : Type} [DecidableEq K] :
    ∀ (groups : List (K × List Skillsets7)) (n : ℕ) (kp : K),
      (∀ g ∈ groups, g.2 ≠ []) →
      groups.Chain' (fun a b => a.1 ≠ b.1) →
      (∀ g ∈ groups.head?, g.1 ≠ kp) →
      dayIndicesAux (flattenGroups groups) n (some kp) =
        expectedTail n kp groups := by
  intro groups
  induction groups with
  | nil => intro n kp _ _ _; rfl
  | cons g rest ih =>
    intro n kp hall hchain hhead
    cases g with
    | mk k items =>
      have hne : items ≠ [] := hall (k, items) (List.mem_cons_self _ _)
      obtain ⟨s, items', rfl⟩ := List.exists_cons_of_ne_nil hne
      have hflat : flattenGroups ((k, s :: items') :: rest) =
          (k, s) :: (items'.map (Prod.mk k) ++ flattenGroups rest) := by
        simp [flattenGroups]
      rw [hflat]
      have hkp : kp ≠ k := by
        have := hhead (k, s :: items') rfl
        exact this.symm
      rw [dayIndicesAux_cons_some, if_pos hkp, dayIndicesAux_run]
      have hchain2 := (List.chain'_cons'.mp hchain).2
      have hhead2 := (List.chain'_cons'.mp hchain).1
      rw [ih (n + 1 + items'.length) k
        (fun g hg => hall g (List.mem_cons_of_mem _ hg)) hchain2
        (fun g hg => (hhead2 g hg).symm)]
      show _ = (kp, n + 1) :: expectedTail (n + (s :: items').length) k rest
      have : n + 1 + items'.length = n + (s :: items').length := by
        simp
        omega
      rw [this]

theorem dayIndices_flatten {K : Type} [DecidableEq K] (k : K)
    (items : List Skillsets7) (rest : List (K × List Skillsets7))
    (hne : items ≠ []) (hall : ∀ g ∈ rest, g.2 ≠ [])
    (hchain : ((k, items) :: rest).Chain' (fun a b => a.1 ≠ b.1)) :
    dayIndices (flattenGroups ((k, items) :: rest)) =
      expectedTail items.length k rest := by
  obtain ⟨s, items', rfl⟩ := List.exists_cons_of_ne_nil hne
  have hflat : flattenGroups ((k, s :: items') :: rest) =
      (k, s) :: (items'.map (Prod.mk k) ++ flattenGroups rest) := by
    simp [flattenGroups]
  unfold dayIndices
  rw [hflat, dayIndicesAux_cons_none, dayIndicesAux_run]
  have hchain2 := (List.chain'_cons'.mp hchain).2
  have hhead2 := (List.chain'_cons'.mp hchain).1
  rw [dayIndicesAux_flatten rest (0 + 1 + items'.length) k hall hchain2
    (fun g hg => (hhead2 g hg).symm)]
  have : 0 + 1 + items'.length = (s :: items').length := by
    simp
    omega
  rw [this]

theorem flattenGroups_length {K : Type} (groups : List (K × List Skillsets7)) :
    (flattenGroups groups).length = (groups.map fun g => g.2.length).sum := by
  induction groups with
  | nil => rfl
  | cons g rest ih =>
    cases g with
    | mk k items =>
      simp [flattenGroups] at ih ⊢
      omega

/-- C9 (amended): for every contiguously grouped input (each group nonempty,
adjacent keys distinct), `SkillTimeline::calculate` produces exactly one
entry per group, in order and carrying the group keys; the entry of the k-th
group is the snapshot over the prefix running through the end of that group
PLUS the first score of the following group (for every non-final group),
while the final group's entry covers exactly all inputs; each snapshot rates
every skillset dimension over that prefix with the chosen player-rating
formula and derives the overall from the seven results. -/
theorem C9_amended {K : Type} [DecidableEq K] (erfc : ℝ → ℝ) (pre_070 : Bool)
    (k : K) (items : List Skillsets7) (rest : List (K × List Skillsets7))
    (hne : items ≠ []) (hall : ∀ g ∈ rest, g.2 ≠ [])
    (hchain : ((k, items) :: rest).Chain' (fun a b => a.1 ≠ b.1)) :
    dayIndices (flattenGroups ((k, items) :: rest)) =
        expectedTail items.length k rest
      ∧ SkillTimeline_calculate erfc (flattenGroups ((k, items) :: rest)) pre_070 =
          (expectedTail items.length k rest).map (fun x =>
            (x.1,
              timelineSnapshot
                (if pre_070 then calculate_player_skillset_rating_pre_070 erfc
                  else calculate_player_skillset_rating erfc)
                (if pre_070 then Skillsets7.calc_player_overall_pre_070
                  else Skillsets7.calc_player_overall erfc)
                (flattenGroups ((k, items) :: rest)) x.2))
      ∧ (expectedTail items.length k rest).length = ((k, items) :: rest).length
      ∧ (expectedTail items.length k rest).map Prod.fst =
          ((k, items) :: rest).map Prod.fst
      ∧ ((expectedTail items.length k rest).getLast?).map Prod.snd =
          some ((flattenGroups ((k, items) :: rest)).length) := by
  have h1 := dayIndices_flatten k items rest hne hall hchain
  refine ⟨h1, ?_, ?_, ?_, ?_⟩
  · unfold SkillTimeline_calculate
    rw [h1]
  · rw [expectedTail_length]
    simp
  · rw [expectedTail_keys]
    simp
  · rw [expectedTail_getLast_snd, flattenGroups_length]
    simp

theorem whileAdd_eval1 (okay : ℝ → Prop) (r s : ℝ) (h0 : ¬ okay (r + s))
    (h1 : okay (r + s + s)) : whileAdd okay r s = r + s := by
  unfold whileAdd
  have h1' : (1 : ℕ) ∈ {n : ℕ | okay (r + n * s + s)} := by
    simp only [Set.mem_setOf_eq, Nat.cast_one, one_mul]
    exact h1
  have h0' : (0 : ℕ) ∉ {n : ℕ | okay (r + n * s + s)} := by
    simp only [Set.mem_setOf_eq, Nat.cast_zero, zero_mul, add_zero]
    exact h0
  have hsinf : sInf {n : ℕ | okay (r + n * s + s)} = 1 := by
    have hle : sInf {n : ℕ | okay (r + n * s + s)} ≤ 1 := Nat.sInf_le h1'
    have hne : sInf {n : ℕ | okay (r + n * s + s)} ≠ 0 := by
      intro hz
      rcases Nat.sInf_eq_zero.mp hz with h | h
      · exact h0' h
      · rw [h] at h1'
        exact absurd h1' (Set.not_mem_empty 1)
    omega
  rw [hsinf]
  push_cast
  ring

theorem calcLoop_of_okay_pos (okay : ℝ → Prop) (h : ∀ r, 0 < r → okay r) :
    ∀ (n : ℕ) (r s : ℝ), 0 ≤ r → 0 < s →
      calcLoop okay n r s = r + s / 2 ^ n * 2 := by
  intro n
  induction n with
  | zero =>
    intro r s _ _
    show r + s * 2 = r + s / 2 ^ 0 * 2
    norm_num
  | succ n ih =>
    intro r s hr hs
    rw [calcLoop, whileAdd_of_okay okay r s (h _ (by linarith)),
      ih r (s / 2) hr (by linarith)]
    have : s / 2 / 2 ^ n = s / 2 ^ (n + 1) := by
      rw [pow_succ]
      ring
    rw [this]

theorem two_rpow_gt_four_iff (e : ℝ) : 4 < (2 : ℝ) ^ e ↔ 2 < e := by
  rw [show (4 : ℝ) = (2 : ℝ) ^ (2 : ℝ) by rw [Real.rpow_two]; norm_num]
  exact Real.rpow_lt_rpow_left_iff one_lt_two

theorem okayStep_iff_100 (r : ℝ) (hr : 0 < r) :
    is_rating_okay erfcStep r [0, 0, 0, 100] 0.1 ↔ 20 < r := by
  have e0 : erfcStep (0.1 * ((0 : ℝ) - r)) = 2 := by
    unfold erfcStep
    rw [if_pos (by nlinarith)]
  have f0 : (2 : ℝ) / erfcStep (0.1 * ((0 : ℝ) - r)) - 2 = -1 := by
    rw [e0]
    norm_num
  unfold is_rating_okay
  simp only [List.map_cons, List.map_nil, f0]
  by_cases h100 : r < 100
  · have e100 : erfcStep (0.1 * ((100 : ℝ) - r)) = 1 / 3 := by
      unfold erfcStep
      rw [if_neg (by nlinarith)]
    have f100 : (2 : ℝ) / erfcStep (0.1 * ((100 : ℝ) - r)) - 2 = 4 := by
      rw [e100]
      norm_num
    rw [f100]
    have hfil : ([(-1 : ℝ), -1, -1, 4].filter fun x => decide ((0 : ℝ) < x)) =
        [4] := by
      norm_num [List.filter]
    rw [hfil]
    show [(4 : ℝ)].sum < (2 : ℝ) ^ (r * 0.1) ↔ 20 < r
    rw [List.sum_cons, List.sum_nil, add_zero, two_rpow_gt_four_iff]
    constructor
    · intro h
      nlinarith
    · intro h
      nlinarith
  · have e100 : erfcStep (0.1 * ((100 : ℝ) - r)) = 2 := by
      unfold erfcStep
      rw [if_pos (by nlinarith)]
    have f100 : (2 : ℝ) / erfcStep (0.1 * ((100 : ℝ) - r)) - 2 = -1 := by
      rw [e100]
      norm_num
    rw [f100]
    have hfil : ([(-1 : ℝ), -1, -1, -1].filter fun x => decide ((0 : ℝ) < x)) =
        [] := by
      norm_num [List.filter]
    rw [hfil]
    have : ([] : List ℝ).sum < (2 : ℝ) ^ (r * 0.1) := by
      simpa using Real.rpow_pos_of_pos (by norm_num) (r * 0.1)
    exact iff_of_true this (by linarith)

theorem okayStep_000 (r : ℝ) (hr : 0 < r) :
    is_rating_okay erfcStep r [0, 0, 0] 0.1 := by
  have e0 : erfcStep (0.1 * ((0 : ℝ) - r)) = 2 := by
    unfold erfcStep
    rw [if_pos (by nlinarith)]
  have f0 : (2 : ℝ) / erfcStep (0.1 * ((0 : ℝ) - r)) - 2 = -1 := by
    rw [e0]
    norm_num
  unfold is_rating_okay
  simp only [List.map_cons, List.map_nil, f0]
  have hfil : ([(-1 : ℝ), -1, -1].filter fun x => decide ((0 : ℝ) < x)) = [] := by
    norm_num [List.filter]
  rw [hfil]
  simpa using Real.rpow_pos_of_pos (by norm_num) (r * 0.1)

theorem calc_rating_leaky_prefix :
    calc_rating erfcStep [0, 0, 0, 100] 1.04 0.1 = 20.8104 := by
  unfold calc_rating
  have hiff : ∀ r : ℝ, 0 < r →
      ((fun r => is_rating_okay erfcStep r [0, 0, 0, 100] 0.1) r ↔ 20 < r) :=
    fun r hr => okayStep_iff_100 r hr
  set ok : ℝ → Prop := fun r => is_rating_okay erfcStep r [0, 0, 0, 100] 0.1
    with hok
  have hyes : ∀ r : ℝ, 0 < r → 20 < r → ok r := fun r h1 h2 => (hiff r h1).mpr h2
  have hno : ∀ r : ℝ, 0 < r → r ≤ 20 → ¬ ok r := fun r h1 h2 hcon =>
    absurd ((hiff r h1).mp hcon) (not_lt.mpr h2)
  have w1 : whileAdd ok 0 10.24 = 0 + 10.24 :=
    whileAdd_eval1 ok 0 10.24 (hno _ (by norm_num) (by norm_num))
      (hyes _ (by norm_num) (by norm_num))
  have w2 : whileAdd ok 10.24 5.12 = 10.24 + 5.12 :=
    whileAdd_eval1 ok 10.24 5.12 (hno _ (by norm_num) (by norm_num))
      (hyes _ (by norm_num) (by norm_num))
  have w3 : whileAdd ok 15.36 2.56 = 15.36 + 2.56 :=
    whileAdd_eval1 ok 15.36 2.56 (hno _ (by norm_num) (by norm_num))
      (hyes _ (by norm_num) (by norm_num))
  have w4 : whileAdd ok 17.92 1.28 = 17.92 + 1.28 :=
    whileAdd_eval1 ok 17.92 1.28 (hno _ (by norm_num) (by norm_num))
      (hyes _ (by norm_num) (by norm_num))
  have w5 : whileAdd ok 19.2 0.64 = 19.2 + 0.64 :=
    whileAdd_eval1 ok 19.2 0.64 (hno _ (by norm_num) (by norm_num))
      (hyes _ (by norm_num) (by norm_num))
  have w6 : whileAdd ok 19.84 0.32 = 19.84 :=
    whileAdd_of_okay ok 19.84 0.32 (hyes _ (by norm_num) (by norm_num))
  have w7 : whileAdd ok 19.84 0.16 = 19.84 + 0.16 :=
    whileAdd_eval1 ok 19.84 0.16 (hno _ (by norm_num) (by norm_num))
      (hyes _ (by norm_num) (by norm_num))
  have w8 : whileAdd ok 20 0.08 = 20 :=
    whileAdd_of_okay ok 20 0.08 (hyes _ (by norm_num) (by norm_num))
  have w9 : whileAdd ok 20 0.04 = 20 :=
    whileAdd_of_okay ok 20 0.04 (hyes _ (by norm_num) (by norm_num))
  have w10 : whileAdd ok 20 0.02 = 20 :=
    whileAdd_of_okay ok 20 0.02 (hyes _ (by norm_num) (by norm_num))
  have w11 : whileAdd ok 20 0.01 = 20 :=
    whileAdd_of_okay ok 20 0.01 (hyes _ (by norm_num) (by norm_num))
  have u11 : calcLoop ok 11 0 10.24 =
      calcLoop ok 10 (whileAdd ok 0 10.24) (10.24 / 2) := rfl
  have u10 : calcLoop ok 10 10.24 5.12 =
      calcLoop ok 9 (whileAdd ok 10.24 5.12) (5.12 / 2) := rfl
  have u9 : calcLoop ok 9 15.36 2.56 =
      calcLoop ok 8 (whileAdd ok 15.36 2.56) (2.56 / 2) := rfl
  have u8 : calcLoop ok 8 17.92 1.28 =
      calcLoop ok 7 (whileAdd ok 17.92 1.28) (1.28 / 2) := rfl
  have u7 : calcLoop ok 7 19.2 0.64 =
      calcLoop ok 6 (whileAdd ok 19.2 0.64) (0.64 / 2) := rfl
  have u6 : calcLoop ok 6 19.84 0.32 =
      calcLoop ok 5 (whileAdd ok 19.84 0.32) (0.32 / 2) := rfl
  have u5 : calcLoop ok 5 19.84 0.16 =
      calcLoop ok 4 (whileAdd ok 19.84 0.16) (0.16 / 2) := rfl
  have u4 : calcLoop ok 4 20 0.08 =
      calcLoop ok 3 (whileAdd ok 20 0.08) (0.08 / 2) := rfl
  have u3 : calcLoop ok 3 20 0.04 =
      calcLoop ok 2 (whileAdd ok 20 0.04) (0.04 / 2) := rfl
  have u2 : calcLoop ok 2 20 0.02 =
      calcLoop ok 1 (whileAdd ok 20 0.02) (0.02 / 2) := rfl
  have u1 : calcLoop ok 1 20 0.01 =
      calcLoop ok 0 (whileAdd ok 20 0.01) (0.01 / 2) := rfl
  have u0 : ∀ a b : ℝ, calcLoop ok 0 a b = a + b * 2 := fun a b => rfl
  have hloop : calcLoop ok 11 0 10.24 = 20.01 := by
    calc calcLoop ok 11 0 10.24
        = calcLoop ok 10 10.24 5.12 := by rw [u11, w1]; norm_num
      _ = calcLoop ok 9 15.36 2.56 := by rw [u10, w2]; norm_num
      _ = calcLoop ok 8 17.92 1.28 := by rw [u9, w3]; norm_num
      _ = calcLoop ok 7 19.2 0.64 := by rw [u8, w4]; norm_num
      _ = calcLoop ok 6 19.84 0.32 := by rw [u7, w5]; norm_num
      _ = calcLoop ok 5 19.84 0.16 := by rw [u6, w6]; norm_num
      _ = calcLoop ok 4 20 0.08 := by rw [u5, w7]; norm_num
      _ = calcLoop ok 3 20 0.04 := by rw [u4, w8]; norm_num
      _ = calcLoop ok 2 20 0.02 := by rw [u3, w9]; norm_num
      _ = calcLoop ok 1 20 0.01 := by rw [u2, w10]; norm_num
      _ = calcLoop ok 0 20 0.005 := by rw [u1, w11]; norm_num
      _ = 20.01 := by rw [u0]; norm_num
  rw [hloop]
  norm_num

theorem calc_rating_clean_prefix :
    calc_rating erfcStep [0, 0, 0] 1.04 0.1 = 0.0104 := by
  unfold calc_rating
  rw [calcLoop_of_okay_pos _ (fun r hr => okayStep_000 r hr) 11 0 10.24
    (by norm_num) (by norm_num)]
  norm_num

/-- C9 (counterexample): on three group-0 scores followed by two group-1
scores, the first timeline entry is computed over the first FOUR pushed
scores — the source pushes the first score of the next group before testing
for the boundary — so its stream rating is 20.8104 under the concrete erfc
realisation `erfcStep`, whereas the claim ("through the end of the k-th
group", i.e. over the first three scores) predicts 0.0104.  The second entry
covers all five inputs, as the claim says. -/
theorem C9_counterexample :
    ((SkillTimeline_calculate erfcStep input5 true).map
        (fun e => (e.1, e.2.stream))).head? = some (0, 20.8104)
      ∧ calculate_player_skillset_rating_pre_070 erfcStep
          ((input5.take 3).map fun x => x.2.stream) = 0.0104
      ∧ (20.8104 : ℝ) ≠ 0.0104 := by
  have hidx : dayIndices input5 = [(0, 4), (1, 5)] := rfl
  have htake4 : (input5.take 4).map (fun x => x.2.stream) = [0, 0, 0, 100] := rfl
  have htake3 : (input5.take 3).map (fun x => x.2.stream) = [0, 0, 0] := rfl
  have hval4 : (timelineSnapshot (calculate_player_skillset_rating_pre_070 erfcStep)
      Skillsets7.calc_player_overall_pre_070 input5 4).stream = 20.8104 := by
    show calculate_player_skillset_rating_pre_070 erfcStep
      ((input5.take 4).map fun x => x.2.stream) = 20.8104
    rw [htake4]
    exact calc_rating_leaky_prefix
  refine ⟨?_, ?_, by norm_num⟩
  · show (((dayIndices input5).map (fun x =>
        (x.1, timelineSnapshot (calculate_player_skillset_rating_pre_070 erfcStep)
          Skillsets7.calc_player_overall_pre_070 input5 x.2))).map
        (fun e => (e.1, e.2.stream))).head? = some (0, 20.8104)
    rw [hidx]
    simp only [List.map_cons, List.map_nil, List.head?_cons]
    rw [hval4]
  · rw [htake3]
    exact calc_rating_clean_prefix

/-- C9 (witness for the amended theorem): the day1³ day2² example. The
boundary list is exactly `[(0, 4), (1, 5)]`: two entries, the second over all
five inputs, the first over four (three from group 0 plus the leaked first
score of group 1). -/
theorem C9_amended_witness :
    dayIndices (flattenGroups [((0 : ℕ), [ssA, ssA, ssA]), (1, [ssB, ssB])]) =
        expectedTail 3 0 [(1, [ssB, ssB])]
      ∧ expectedTail 3 (0 : ℕ) [(1, [ssB, ssB])] = [(0, 4), (1, 5)]
      ∧ flattenGroups [((0 : ℕ), [ssA, ssA, ssA]), (1, [ssB, ssB])] = input5 := by
  have hne : ([ssA, ssA, ssA] : List Skillsets7) ≠ [] := by simp
  have hall : ∀ g ∈ [((1 : ℕ), [ssB, ssB])], g.2 ≠ [] := by
    intro g hg
    rw [List.mem_singleton] at hg
    subst hg
    simp
  have hchain : ([((0 : ℕ), [ssA, ssA, ssA]), (1, [ssB, ssB])]).Chain'
      (fun a b => a.1 ≠ b.1) := by
    simp [List.chain'_cons']
  exact ⟨(C9_amended (fun _ => 1) true 0 [ssA, ssA, ssA] [(1, [ssB, ssB])]
    hne hall hchain).1, rfl, rfl⟩

end Etterna
